import Mathlib

/-!
# go-web-crawler: the concurrent crawl of `main.go`

A shallow embedding of the three pieces of `main.go` that make up the
"Toy Web Crawler - Concurrently" section:

* `do_`               the JSON job source (`func do(f func(Lang))`, lines 198-218);
* `count_concurrent`  the worker goroutine (lines 232-242);
* `Coll`, `step?`     the collection loop of `main` (lines 136-155), as a
                      transition system driven by a schedule of actions.

Everything the program cannot decide by itself is an input of the model: the
outcomes of `os.Open` and `dec.Decode`, the outcome of `http.Get` / `io.Copy`,
the rendering of the elapsed time, whether a send on the unbuffered channel is
ever taken by a receiver, the moments at which goroutines reach their send, the
moment the timer fires, and the case a ready `select` takes.
-/

namespace Crawler

/-! ## Data model -/

/-- The record type `Lang` of `main.go` (lines 192-196). -/
structure Lang where
  Name : String
  Year : Int
  URL : String
  deriving DecidableEq

/-! ## The job source: `do` -/

/-- An error value returned by `dec.Decode`: either `io.EOF` or anything else. -/
inductive DecodeErr where
  | eof
  | other (msg : String)
  deriving DecidableEq

/-- One outcome of `dec.Decode(&lang)`: a decoded record or an error value. -/
abbrev Decoded := Except DecodeErr Lang

/-- How a function of the program ends: by returning, or in `log.Fatal`
(which prints its argument and exits the process). -/
inductive Exit where
  | returned
  | fatal (msg : String)
  deriving DecidableEq

/-- The `for` loop of `do` (lines 207-217) over the successive outcomes of
`dec.Decode`. The callback `f` is a state transformer on the caller's state.
A decoder whose scripted outcomes are used up reports `io.EOF`, as a decoder at
the end of its input does. -/
def decodeLoop {σ : Type} (f : Lang → σ → σ) : List Decoded → σ → Exit × σ
  | [], s => (Exit.returned, s)
  | Except.error DecodeErr.eof :: _, s => (Exit.returned, s)
  | Except.error (DecodeErr.other msg) :: _, s => (Exit.fatal msg, s)
  | Except.ok lang :: rest, s => decodeLoop f rest (f lang s)

/-- The function `do` (lines 198-218). `opened` is the outcome of
`os.Open("./lang.json")`: an error text, or the outcomes the decoder will give
on the opened file. -/
def do_ {σ : Type} (opened : Except String (List Decoded)) (f : Lang → σ → σ) (s : σ) :
    Exit × σ :=
  match opened with
  | Except.error msg => (Exit.fatal msg, s)
  | Except.ok outcomes => decodeLoop f outcomes s

/-- The records a sequence of decode outcomes yields before its first error
value (`io.EOF` included). -/
def decodedBefore : List Decoded → List Lang
  | Except.ok lang :: rest => lang :: decodedBefore rest
  | _ => []

/-- The text of the first error other than `io.EOF` among the decode outcomes,
when one shows up before any `io.EOF`: the malformed record of the source. -/
def firstMalformed : List Decoded → Option String
  | [] => none
  | Except.error DecodeErr.eof :: _ => none
  | Except.error (DecodeErr.other msg) :: _ => some msg
  | Except.ok _ :: rest => firstMalformed rest

/-! ## The dispatch of `main` (lines 136-143) -/

namespace main

/-- The part of `main`'s state touched by the dispatch callback: the counter `n`
and the goroutines started so far, each with the `name` and `url` it was given. -/
structure Dispatch where
  n : Nat
  started : List (String × String)
  deriving DecidableEq

/-- The callback passed to `do` at lines 139-142:
`n++; go count_concurrent(lang.Name, lang.URL, c)`. -/
def dispatch (lang : Lang) (d : Dispatch) : Dispatch :=
  { n := d.n + 1, started := d.started ++ [(lang.Name, lang.URL)] }

/-- Lines 136-145 of `main`: run `do` with the dispatch callback from `n = 0`;
when `do` returns, the loop is entered with the `n` it left. `none` when
`log.Fatal` ended the process inside `do`. -/
def startCollection (opened : Except String (List Decoded)) : Option Nat :=
  match do_ opened dispatch { n := 0, started := [] } with
  | (Exit.returned, d) => some d.n
  | (Exit.fatal _, _) => none

end main

/-! ## The worker: `count_concurrent` -/

/-- What the network does for one worker: `http.Get` never returns or `io.Copy`
never returns (`hang`), `http.Get` returns an error (`getErr`), or `http.Get`
returns a response and `io.Copy` returns the number of bytes it copied together
with its own error, if any (`body`). -/
inductive Fetch where
  | hang
  | getErr (err : String)
  | body (copied : Nat) (copyErr : Option String)
  deriving DecidableEq

/-- The text built by `fmt.Sprintf("%s: %s", name, err)` (line 236). -/
def failureLine (name err : String) : String :=
  name ++ ": " ++ err

/-- The text built by `fmt.Sprintf("%s %d [%.2fs]\n", name, n, secs)` (line 241);
`elapsed` is the `%.2f` rendering of `time.Since(start).Seconds()`. -/
def successLine (name : String) (n : Nat) (elapsed : String) : String :=
  name ++ " " ++ toString n ++ " [" ++ elapsed ++ "s]\n"

/-- What one run of a worker does: the messages with which it reaches a send
statement on `c` (`offered`), the sends that completed (`sent`), and how it ends
(`none`: it never returns). -/
structure Worker where
  offered : List String
  sent : List String
  exit : Option Exit
  deriving DecidableEq

/-- The statement `c <- line` followed by the end of the function (lines 236-237
and line 241). The channel of line 137 is unbuffered, so the send completes only
when a receiver takes the message: `c line` is `true` when `main` receives it and
`false` when no receiver ever does, in which case the worker stays parked in its
send and never returns. -/
def sendAndReturn (c : String → Bool) (line : String) : Worker :=
  if c line then { offered := [line], sent := [line], exit := some Exit.returned }
  else { offered := [line], sent := [], exit := none }

/-- The function `count_concurrent` (lines 232-242). `get` stands for the network
(`http.Get` followed by `io.Copy` on the body), `elapsed` for the rendered
elapsed time, `c` for the channel as the sender meets it (see `sendAndReturn`).
The error of `io.Copy` is bound to `_` in the source and plays no role. The
function has no call of `log.Fatal`. -/
def count_concurrent (get : String → Fetch) (elapsed : String) (name url : String)
    (c : String → Bool) : Worker :=
  match get url with
  | Fetch.hang => { offered := [], sent := [], exit := none }
  | Fetch.getErr err => sendAndReturn c (failureLine name err)
  | Fetch.body n _ => sendAndReturn c (successLine name n elapsed)

/-- A message has the shape of a failure report for `name`: it starts with
`name` followed by a colon and a blank. -/
def isFailureFor (name msg : String) : Bool :=
  (name ++ ": ").data.isPrefixOf msg.data

/-! ## The collection loop of `main` (lines 144-155) -/

namespace main


/-- One call of `fmt.Print` / `fmt.Printf` in lines 144-155, named by its place:
a value received from `c` (lines 148 and 153), the literal of line 150, or the
closing line of line 155. -/
inductive Printed where
  | result (msg : String)
  | timedOut
  | total
  deriving DecidableEq

/-- The text a print puts on standard output; `secs` is the `%.2f` rendering of
the total elapsed time. -/
def Printed.text (secs : String) : Printed → String
  | Printed.result msg => msg
  | Printed.timedOut => "Timed out\n"
  | Printed.total => secs ++ "s total\n"

/-- Where the main goroutine stands: parked in the `select` of line 146, parked
in the receive of line 153, past the loop with line 155 printed (`done`), or
gone through the `return` of line 151 (`returned`). -/
inductive Pc where
  | atSelect
  | atRecv
  | done
  | returned
  deriving DecidableEq

/-- The state of the collection: the bound `n`, the loop variable `i`, the
control point, the messages of the goroutines parked in `c <- msg` (the channel
is unbuffered), whether the timer of `time.After` has fired, what has been
printed, and how many receives from `c` have completed. -/
structure Coll where
  n : Nat
  i : Nat
  pc : Pc
  senders : List String
  fired : Bool
  sink : List Printed
  recvs : Nat
  deriving DecidableEq

/-- The loop test `i < n` of line 145: enter the body, or leave the loop and
print the closing line. -/
def loopHead (st : Coll) : Coll :=
  if st.i < st.n then { st with pc := Pc.atSelect }
  else { st with pc := Pc.done, sink := st.sink ++ [Printed.total] }

/-- The state in which `main` reaches the loop with counter `n` (lines 144-145,
`i := 0`): nothing received, nothing printed, timer running. -/
def init (n : Nat) : Coll :=
  loopHead { n := n, i := 0, pc := Pc.atSelect, senders := [], fired := false,
             sink := [], recvs := 0 }

/-- What can happen next: a worker reaches its send with message `msg`
(`arrive`), the timer fires (`fire`), the `select` takes its first case and
receives `msg` (`selChan`), the `select` takes its second case (`selTimer`), or
the receive of line 153 completes with `msg` (`recv`). -/
inductive Act where
  | arrive (msg : String)
  | fire
  | selChan (msg : String)
  | selTimer
  | recv (msg : String)
  deriving DecidableEq

/-- One transition, `none` when the action cannot happen in this state. A
receive needs a parked sender with that message; the timer case needs a fired
timer; the timer fires once. -/
def step? (st : Coll) : Act → Option Coll
  | Act.arrive msg => some { st with senders := st.senders ++ [msg] }
  | Act.fire => if st.fired then none else some { st with fired := true }
  | Act.selChan msg =>
      if st.pc = Pc.atSelect ∧ msg ∈ st.senders then
        some { st with pc := Pc.atRecv, senders := st.senders.erase msg,
                       sink := st.sink ++ [Printed.result msg], recvs := st.recvs + 1 }
      else none
  | Act.selTimer =>
      if st.pc = Pc.atSelect ∧ st.fired = true then
        some { st with pc := Pc.returned, sink := st.sink ++ [Printed.timedOut] }
      else none
  | Act.recv msg =>
      if st.pc = Pc.atRecv ∧ msg ∈ st.senders then
        some (loopHead { st with senders := st.senders.erase msg,
                                 sink := st.sink ++ [Printed.result msg],
                                 recvs := st.recvs + 1, i := st.i + 1 })
      else none

/-- A transition that leaves the state alone when the action cannot happen. -/
def exec (st : Coll) (a : Act) : Coll :=
  (step? st a).getD st

/-- The state after a schedule of actions. -/
def run (st : Coll) (acts : List Act) : Coll :=
  acts.foldl exec st

/-- Every action of the schedule can happen when its turn comes. -/
def feasible (st : Coll) : List Act → Bool
  | [] => true
  | a :: rest =>
      match step? st a with
      | some st1 => feasible st1 rest
      | none => false

/-- The number of results among the prints. -/
def results (sink : List Printed) : Nat :=
  (sink.filter (fun p => p matches Printed.result _)).length

/-- The number of workers that reach their send in a schedule. -/
def arrivals (acts : List Act) : Nat :=
  (acts.filter (fun a => a matches Act.arrive _)).length

/-- The main goroutine can move in this state: some case of the `select` is
ready, or the receive of line 153 has a sender. -/
def canMove (st : Coll) : Bool :=
  match st.pc with
  | Pc.atSelect => st.fired || !st.senders.isEmpty
  | Pc.atRecv => !st.senders.isEmpty
  | Pc.done => false
  | Pc.returned => false

/-- The invariant of the collection loop: the receive count is the number of
results printed; it is `2 * i` at the `select` and after the early return,
`2 * i + 1` at the receive of line 153 and `2 * n` past the loop; the literal of
line 150 is printed exactly when the early return was taken, and is then the
last print; the closing line is printed exactly when the loop was left. -/
def LoopInv (st : Coll) : Prop :=
  results st.sink = st.recvs ∧
  (st.pc = Pc.atSelect → st.i < st.n ∧ st.recvs = 2 * st.i) ∧
  (st.pc = Pc.atRecv → st.i < st.n ∧ st.recvs = 2 * st.i + 1) ∧
  (st.pc = Pc.done → st.i = st.n ∧ st.recvs = 2 * st.n) ∧
  (st.pc = Pc.returned → st.i < st.n ∧ st.recvs = 2 * st.i) ∧
  st.sink.count Printed.timedOut = (if st.pc = Pc.returned then 1 else 0) ∧
  st.sink.count Printed.total = (if st.pc = Pc.done then 1 else 0) ∧
  (st.pc = Pc.returned → st.sink.getLast? = some Printed.timedOut)

end main

open main

/-! ## Lemmas on the collection loop -/

@[simp] theorem results_nil : results [] = 0 := rfl

@[simp] theorem results_append (xs ys : List Printed) :
    results (xs ++ ys) = results xs + results ys := by
  simp [results, List.filter_append]

@[simp] theorem results_cons_result (msg : String) (sink : List Printed) :
    results (Printed.result msg :: sink) = results sink + 1 := by
  simp [results]

@[simp] theorem results_cons_timedOut (sink : List Printed) :
    results (Printed.timedOut :: sink) = results sink := by
  simp [results]

@[simp] theorem results_cons_total (sink : List Printed) :
    results (Printed.total :: sink) = results sink := by
  simp [results]

theorem exec_arrive (st : Coll) (msg : String) :
    exec st (Act.arrive msg) = { st with senders := st.senders ++ [msg] } := rfl

theorem exec_fire (st : Coll) :
    exec st Act.fire = { st with fired := true } := by
  obtain ⟨n, i, pc, senders, fired, sink, recvs⟩ := st
  cases fired <;> simp [exec, step?]

theorem exec_selChan (st : Coll) (msg : String) :
    exec st (Act.selChan msg) =
      if st.pc = Pc.atSelect ∧ msg ∈ st.senders then
        { st with pc := Pc.atRecv, senders := st.senders.erase msg,
                  sink := st.sink ++ [Printed.result msg], recvs := st.recvs + 1 }
      else st := by
  simp only [exec, step?]
  split_ifs <;> rfl

theorem exec_selTimer (st : Coll) :
    exec st Act.selTimer =
      if st.pc = Pc.atSelect ∧ st.fired = true then
        { st with pc := Pc.returned, sink := st.sink ++ [Printed.timedOut] }
      else st := by
  simp only [exec, step?]
  split_ifs <;> rfl

theorem exec_recv (st : Coll) (msg : String) :
    exec st (Act.recv msg) =
      if st.pc = Pc.atRecv ∧ msg ∈ st.senders then
        loopHead { st with senders := st.senders.erase msg,
                           sink := st.sink ++ [Printed.result msg],
                           recvs := st.recvs + 1, i := st.i + 1 }
      else st := by
  simp only [exec, step?]
  split_ifs <;> rfl

theorem inv_init (n : Nat) : LoopInv (init n) := by
  unfold init loopHead LoopInv
  split_ifs with h <;> simp_all [results]

theorem inv_exec (st : Coll) (a : Act) (h : LoopInv st) : LoopInv (exec st a) := by
  obtain ⟨n, i, pc, senders, fired, sink, recvs⟩ := st
  cases a with
  | arrive msg => simpa [exec_arrive, LoopInv] using h
  | fire => simpa [exec_fire, LoopInv] using h
  | selChan msg =>
    rw [exec_selChan]
    split_ifs with hc
    · obtain ⟨hpc, _⟩ := hc
      simp only at hpc
      subst hpc
      simp [LoopInv] at h ⊢
      omega
    · exact h
  | selTimer =>
    rw [exec_selTimer]
    split_ifs with hc
    · obtain ⟨hpc, _⟩ := hc
      simp only at hpc
      subst hpc
      simp [LoopInv] at h ⊢
      simp [List.count_append, h]
    · exact h
  | recv msg =>
    rw [exec_recv]
    split_ifs with hc
    · obtain ⟨hpc, _⟩ := hc
      simp only at hpc
      subst hpc
      simp [LoopInv] at h
      unfold loopHead
      split_ifs with hi
      · simp [LoopInv] at hi ⊢
        simp [List.count_append, h]
        omega
      · simp [LoopInv] at hi ⊢
        simp [List.count_append, h]
        omega
    · exact h

theorem inv_run (acts : List Act) (st : Coll) (h : LoopInv st) : LoopInv (run st acts) := by
  induction acts generalizing st with
  | nil => simpa [run] using h
  | cons a rest ih => exact ih (exec st a) (inv_exec st a h)

theorem arrivals_cons (a : Act) (rest : List Act) :
    arrivals (a :: rest) = arrivals [a] + arrivals rest := by
  cases a with
  | arrive msg => simp [arrivals, List.filter_cons]; omega
  | _ => simp [arrivals, List.filter_cons]

theorem arrivals_append (xs ys : List Act) :
    arrivals (xs ++ ys) = arrivals xs + arrivals ys := by
  simp [arrivals, List.filter_append]

theorem run_append (st : Coll) (xs ys : List Act) :
    run st (xs ++ ys) = run (run st xs) ys := by
  simp [run, List.foldl_append]

/-- Every message that reached the channel is either received or still parked:
one action changes the sum by one exactly when it is an arrival. -/
theorem sent_exec (st : Coll) (a : Act) :
    (exec st a).recvs + (exec st a).senders.length
      = st.recvs + st.senders.length + arrivals [a] := by
  cases a with
  | arrive msg => simp [exec_arrive, arrivals]; omega
  | fire => simp [exec_fire, arrivals]
  | selChan msg =>
    rw [exec_selChan]
    split_ifs with hc
    · have hlen := List.length_pos_of_mem hc.2
      simp [arrivals, List.length_erase_of_mem hc.2]
      omega
    · simp [arrivals]
  | selTimer =>
    rw [exec_selTimer]
    split_ifs <;> simp [arrivals]
  | recv msg =>
    rw [exec_recv]
    split_ifs with hc
    · have hlen := List.length_pos_of_mem hc.2
      unfold loopHead
      split_ifs <;> simp [arrivals, List.length_erase_of_mem hc.2] <;> omega
    · simp [arrivals]

theorem sent_run (acts : List Act) (st : Coll) :
    (run st acts).recvs + (run st acts).senders.length
      = st.recvs + st.senders.length + arrivals acts := by
  induction acts generalizing st with
  | nil => simp [run, arrivals]
  | cons a rest ih =>
    have h1 := ih (exec st a)
    have h2 := sent_exec st a
    have h3 := arrivals_cons a rest
    have h4 : run st (a :: rest) = run (exec st a) rest := rfl
    rw [h4]
    omega

theorem init_recvs (n : Nat) : (init n).recvs = 0 := by
  unfold init loopHead
  split_ifs <;> rfl

theorem init_senders (n : Nat) : (init n).senders = [] := by
  unfold init loopHead
  split_ifs <;> rfl

theorem init_n (n : Nat) : (init n).n = n := by
  unfold init loopHead
  split_ifs <;> rfl

theorem exec_n (st : Coll) (a : Act) : (exec st a).n = st.n := by
  cases a with
  | arrive msg => rfl
  | fire => simp [exec_fire]
  | selChan msg => rw [exec_selChan]; split_ifs <;> rfl
  | selTimer => rw [exec_selTimer]; split_ifs <;> rfl
  | recv msg =>
    rw [exec_recv]
    split_ifs
    · unfold loopHead
      split_ifs <;> rfl
    · rfl

theorem run_n (acts : List Act) (st : Coll) : (run st acts).n = st.n := by
  induction acts generalizing st with
  | nil => rfl
  | cons a rest ih =>
    have h : run st (a :: rest) = run (exec st a) rest := rfl
    rw [h, ih, exec_n]

/-- Once `main` has left the loop, by the `return` or by falling through, no
action changes what was printed, received or counted. -/
theorem exec_halted (st : Coll) (a : Act) (h : st.pc = Pc.returned ∨ st.pc = Pc.done) :
    (exec st a).pc = st.pc ∧ (exec st a).sink = st.sink ∧ (exec st a).recvs = st.recvs
      ∧ (exec st a).i = st.i := by
  cases a with
  | arrive msg => simp [exec_arrive]
  | fire => simp [exec_fire]
  | selChan msg =>
    rw [exec_selChan]
    split_ifs with hc
    · rcases h with h | h <;> rw [hc.1] at h <;> cases h
    · simp
  | selTimer =>
    rw [exec_selTimer]
    split_ifs with hc
    · rcases h with h | h <;> rw [hc.1] at h <;> cases h
    · simp
  | recv msg =>
    rw [exec_recv]
    split_ifs with hc
    · rcases h with h | h <;> rw [hc.1] at h <;> cases h
    · simp

theorem run_halted (acts : List Act) (st : Coll) (h : st.pc = Pc.returned ∨ st.pc = Pc.done) :
    (run st acts).pc = st.pc ∧ (run st acts).sink = st.sink ∧ (run st acts).recvs = st.recvs
      ∧ (run st acts).i = st.i := by
  induction acts generalizing st with
  | nil => simp [run]
  | cons a rest ih =>
    have hr : run st (a :: rest) = run (exec st a) rest := rfl
    obtain ⟨e1, e2, e3, e4⟩ := exec_halted st a h
    obtain ⟨r1, r2, r3, r4⟩ := ih (exec st a) (by rw [e1]; exact h)
    rw [hr, r1, r2, r3, r4]
    exact ⟨e1, e2, e3, e4⟩

/-- Every state of every schedule satisfies the invariant. -/
theorem inv_reachable (n : Nat) (acts : List Act) : LoopInv (run (init n) acts) :=
  inv_run acts (init n) (inv_init n)

/-- From the start of the loop, the receives never exceed the arrivals. -/
theorem recvs_le_arrivals (n : Nat) (acts : List Act) :
    (run (init n) acts).recvs ≤ arrivals acts := by
  have h := sent_run acts (init n)
  rw [init_recvs, init_senders] at h
  simp at h
  omega

/-- With no sender parked at the receive of line 153, an action that is not an
arrival leaves `main` parked there. -/
theorem exec_parked (st : Coll) (a : Act) (hpc : st.pc = Pc.atRecv) (hs : st.senders = [])
    (ha : arrivals [a] = 0) :
    (exec st a).pc = Pc.atRecv ∧ (exec st a).senders = [] ∧ (exec st a).sink = st.sink := by
  cases a with
  | arrive msg => simp [arrivals] at ha
  | fire => simp [exec_fire, hpc, hs]
  | selChan msg =>
    rw [exec_selChan]
    split_ifs with hc
    · rw [hs] at hc; simp at hc
    · exact ⟨hpc, hs, rfl⟩
  | selTimer =>
    rw [exec_selTimer]
    split_ifs with hc
    · rw [hpc] at hc; simp at hc
    · exact ⟨hpc, hs, rfl⟩
  | recv msg =>
    rw [exec_recv]
    split_ifs with hc
    · rw [hs] at hc; simp at hc
    · exact ⟨hpc, hs, rfl⟩

theorem run_parked (acts : List Act) (st : Coll) (hpc : st.pc = Pc.atRecv)
    (hs : st.senders = []) (ha : arrivals acts = 0) :
    (run st acts).pc = Pc.atRecv ∧ (run st acts).sink = st.sink := by
  induction acts generalizing st with
  | nil => exact ⟨hpc, rfl⟩
  | cons a rest ih =>
    have hc := arrivals_cons a rest
    have h1 : arrivals [a] = 0 := by omega
    have h2 : arrivals rest = 0 := by omega
    obtain ⟨e1, e2, e3⟩ := exec_parked st a hpc hs h1
    obtain ⟨r1, r2⟩ := ih (exec st a) e1 e2 h2
    have hr : run st (a :: rest) = run (exec st a) rest := rfl
    rw [hr, r1, r2, e3]
    exact ⟨rfl, rfl⟩

/-- In a state of the invariant the literal of line 150 is in the sink exactly
after the early return. -/
theorem timedOut_mem_iff (st : Coll) (h : LoopInv st) :
    Printed.timedOut ∈ st.sink ↔ st.pc = Pc.returned := by
  obtain ⟨_, _, _, _, _, hc, _, _⟩ := h
  constructor
  · intro hm
    by_contra hne
    rw [if_neg hne] at hc
    exact (List.count_eq_zero.mp hc) hm
  · intro hp
    rw [if_pos hp] at hc
    exact List.count_pos_iff.mp (by omega)

theorem total_mem_iff (st : Coll) (h : LoopInv st) :
    Printed.total ∈ st.sink ↔ st.pc = Pc.done := by
  obtain ⟨_, _, _, _, _, _, hc, _⟩ := h
  constructor
  · intro hm
    by_contra hne
    rw [if_neg hne] at hc
    exact (List.count_eq_zero.mp hc) hm
  · intro hp
    rw [if_pos hp] at hc
    exact List.count_pos_iff.mp (by omega)

/-- With at least one job and no more arrivals than jobs the loop is never left
through its test: that would take `2 * n` receives. -/
theorem not_done_of_arrivals_le (n : Nat) (acts : List Act) (hn : 1 ≤ n)
    (hsend : arrivals acts ≤ n) : (run (init n) acts).pc ≠ Pc.done := by
  intro hd
  have hinv := inv_reachable n acts
  obtain ⟨_, _, _, h4, _⟩ := hinv
  have h := (h4 hd).2
  rw [run_n, init_n] at h
  have hle := recvs_le_arrivals n acts
  omega

/-! ## The claims on the collection loop -/

/-- C8: with an empty job list (`n = 0`) the loop test fails at once: `main` is
past the loop before any action happens and before the timer has fired, with
`i = 0`; whatever happens afterwards, nothing is ever received from the channel
and the sink holds the closing line only, neither a result nor the literal
"Timed out". -/
theorem empty_job_list_skips_loop (acts : List Act) :
    (init 0).pc = Pc.done ∧ (init 0).fired = false ∧
    (run (init 0) acts).pc = Pc.done ∧ (run (init 0) acts).i = 0 ∧
    (run (init 0) acts).recvs = 0 ∧ (run (init 0) acts).sink = [Printed.total] := by
  have h0 : (init 0).pc = Pc.done := by decide
  obtain ⟨r1, r2, r3, r4⟩ := run_halted acts (init 0) (Or.inr h0)
  refine ⟨h0, by decide, ?_, ?_, ?_, ?_⟩
  · rw [r1, h0]
  · rw [r4]; decide
  · rw [r3]; decide
  · rw [r2]; decide

/-- C7: in every run, from any number of jobs and under any schedule, the
literal "Timed out" is printed at most once; and once it is in the sink, `main`
has returned, it is the last print, and no later action (parked or late
senders included) adds a print or a receive. -/
theorem timed_out_once_and_final (n : Nat) (pre post : List Act) :
    (run (init n) (pre ++ post)).sink.count Printed.timedOut ≤ 1 ∧
    (Printed.timedOut ∈ (run (init n) pre).sink →
      (run (init n) pre).pc = Pc.returned ∧
      (run (init n) pre).sink.getLast? = some Printed.timedOut ∧
      (run (init n) (pre ++ post)).sink = (run (init n) pre).sink ∧
      (run (init n) (pre ++ post)).recvs = (run (init n) pre).recvs) := by
  constructor
  · obtain ⟨_, _, _, _, _, hc, _, _⟩ := inv_reachable n (pre ++ post)
    rw [hc]
    split_ifs <;> omega
  · intro hm
    have hinv := inv_reachable n pre
    have hp := (timedOut_mem_iff _ hinv).mp hm
    obtain ⟨_, _, _, _, _, _, _, hl⟩ := hinv
    obtain ⟨_, r2, r3, _⟩ := run_halted post (run (init n) pre) (Or.inl hp)
    rw [run_append]
    exact ⟨hp, hl hp, r2, r3⟩

/-- Witness of C7: one job, the timer fires first, the worker comes late. -/
theorem timed_out_once_and_final_witness :
    Printed.timedOut ∈ (run (init 1) [Act.fire, Act.selTimer]).sink ∧
    (run (init 1) ([Act.fire, Act.selTimer] ++ [Act.arrive "late", Act.selChan "late"])).sink
      = [Printed.timedOut] :=
  ⟨by decide,
   ((timed_out_once_and_final 1 [Act.fire, Act.selTimer]
      [Act.arrive "late", Act.selChan "late"]).2 (by decide)).2.2.1.trans (by decide)⟩

/-- C10: with at least one job and at most one message per worker (no more
arrivals than jobs), under every schedule the loop never finishes its `n`
iterations and the closing line is never printed. A run that has come to rest
after the timer fired has taken the early return or is parked in the receive of
line 153 with no sender, and there it stays for as long as no further worker
arrives. Whenever "Timed out" is in the sink it is the last print and the
number of results before it is even. -/
theorem loop_never_completes (n : Nat) (acts : List Act) (hn : 1 ≤ n)
    (hsend : arrivals acts ≤ n) :
    (run (init n) acts).pc ≠ Pc.done ∧
    (run (init n) acts).i < n ∧
    Printed.total ∉ (run (init n) acts).sink ∧
    ((run (init n) acts).fired = true → canMove (run (init n) acts) = false →
      (run (init n) acts).pc = Pc.returned ∨
      ((run (init n) acts).pc = Pc.atRecv ∧ (run (init n) acts).senders = [] ∧
        ∀ more, arrivals more = 0 →
          (run (init n) (acts ++ more)).pc = Pc.atRecv ∧
          (run (init n) (acts ++ more)).sink = (run (init n) acts).sink)) ∧
    (Printed.timedOut ∈ (run (init n) acts).sink →
      (run (init n) acts).pc = Pc.returned ∧
      ∃ before, (run (init n) acts).sink = before ++ [Printed.timedOut] ∧
        Even (results before)) := by
  have hnd := not_done_of_arrivals_le n acts hn hsend
  have hinv := inv_reachable n acts
  have hN : (run (init n) acts).n = n := by rw [run_n, init_n]
  obtain ⟨h0, h1, h2, h3, h4, h5, h6, h7⟩ := hinv
  refine ⟨hnd, ?_, ?_, ?_, ?_⟩
  · rcases hpc : (run (init n) acts).pc with _ | _ | _ | _
    · have := (h1 hpc).1; omega
    · have := (h2 hpc).1; omega
    · exact absurd hpc hnd
    · have := (h4 hpc).1; omega
  · intro hm
    exact hnd ((total_mem_iff _ (inv_reachable n acts)).mp hm)
  · intro hf hstuck
    rcases hpc : (run (init n) acts).pc with _ | _ | _ | _
    · simp [canMove, hpc, hf] at hstuck
    · right
      have hs : (run (init n) acts).senders = [] := by
        simpa [canMove, hpc] using hstuck
      refine ⟨rfl, hs, ?_⟩
      intro more hmore
      rw [run_append]
      exact run_parked more _ hpc hs hmore
    · exact absurd hpc hnd
    · left; rfl
  · intro hm
    have hp := (timedOut_mem_iff _ (inv_reachable n acts)).mp hm
    refine ⟨hp, ?_⟩
    obtain ⟨before, hb⟩ := List.getLast?_eq_some_iff.mp (h7 hp)
    refine ⟨before, hb, ?_⟩
    have hr : results before = (run (init n) acts).recvs := by
      rw [← h0, hb]; simp
    rw [hr, (h4 hp).2]
    exact even_two_mul _

/-- Witness of C10: two jobs whose two messages are both taken by the first
iteration; the second iteration can only time out. -/
theorem loop_never_completes_witness :
    (1 ≤ 2 ∧ arrivals [Act.arrive "a", Act.arrive "b", Act.selChan "a", Act.recv "b",
        Act.fire, Act.selTimer] ≤ 2) ∧
    (run (init 2) [Act.arrive "a", Act.arrive "b", Act.selChan "a", Act.recv "b",
        Act.fire, Act.selTimer]).pc ≠ Pc.done :=
  ⟨by decide,
   (loop_never_completes 2 [Act.arrive "a", Act.arrive "b", Act.selChan "a", Act.recv "b",
      Act.fire, Act.selTimer] (by decide) (by decide)).1⟩

/-- C1 (the code at a failing input): two well-formed records, both fetches
succeed and both workers hand over their line before the timer fires. The first
iteration takes both lines (lines 147 and 153), so the second iteration finds no
sender and ends in "Timed out" and the early return: two results and one
"Timed out" in the sink, the loop not left through its test. The last part is
the text that reaches standard output. -/
theorem two_prompt_jobs_end_timed_out :
    startCollection (Except.ok [Except.ok ⟨"Go", 2009, "http://golang.org/"⟩,
      Except.ok ⟨"Rust", 2010, "http://rust-lang.org/"⟩]) = some 2 ∧
    (count_concurrent (fun _ => Fetch.body 10 none) "0.10" "Go" "http://golang.org/"
      (fun _ => true)).sent = ["Go 10 [0.10s]\n"] ∧
    (count_concurrent (fun _ => Fetch.body 10 none) "0.10" "Rust" "http://rust-lang.org/"
      (fun _ => true)).sent = ["Rust 10 [0.10s]\n"] ∧
    feasible (init 2) [Act.arrive "Go 10 [0.10s]\n", Act.arrive "Rust 10 [0.10s]\n",
      Act.selChan "Go 10 [0.10s]\n", Act.recv "Rust 10 [0.10s]\n", Act.fire, Act.selTimer]
      = true ∧
    run (init 2) [Act.arrive "Go 10 [0.10s]\n", Act.arrive "Rust 10 [0.10s]\n",
      Act.selChan "Go 10 [0.10s]\n", Act.recv "Rust 10 [0.10s]\n", Act.fire, Act.selTimer]
      = { n := 2, i := 1, pc := Pc.returned, senders := [], fired := true,
          sink := [Printed.result "Go 10 [0.10s]\n", Printed.result "Rust 10 [0.10s]\n",
                   Printed.timedOut],
          recvs := 2 } ∧
    [Printed.result "Go 10 [0.10s]\n", Printed.result "Rust 10 [0.10s]\n",
      Printed.timedOut].map (Printed.text "1.00")
      = ["Go 10 [0.10s]\n", "Rust 10 [0.10s]\n", "Timed out\n"] := by
  decide

/-- C2 (the code at a failing input): two jobs, one worker hands over its line
before the timer fires (`k = 1`). After printing it `main` is parked in the
receive of line 153, where the timer is not looked at: no "Timed out" is
printed. When the second worker comes after the deadline its line is printed
too, and only then "Timed out": three prints for `k + 1 = 2`. -/
theorem one_of_two_in_time_parks_main :
    run (init 2) [Act.arrive "Go 10 [0.10s]\n", Act.selChan "Go 10 [0.10s]\n", Act.fire]
      = { n := 2, i := 0, pc := Pc.atRecv, senders := [], fired := true,
          sink := [Printed.result "Go 10 [0.10s]\n"], recvs := 1 } ∧
    canMove (run (init 2) [Act.arrive "Go 10 [0.10s]\n", Act.selChan "Go 10 [0.10s]\n",
      Act.fire]) = false ∧
    feasible (init 2) [Act.arrive "Go 10 [0.10s]\n", Act.selChan "Go 10 [0.10s]\n", Act.fire,
      Act.arrive "Rust 10 [5.00s]\n", Act.recv "Rust 10 [5.00s]\n", Act.selTimer] = true ∧
    (run (init 2) [Act.arrive "Go 10 [0.10s]\n", Act.selChan "Go 10 [0.10s]\n", Act.fire,
      Act.arrive "Rust 10 [5.00s]\n", Act.recv "Rust 10 [5.00s]\n", Act.selTimer]).sink
      = [Printed.result "Go 10 [0.10s]\n", Printed.result "Rust 10 [5.00s]\n",
         Printed.timedOut] := by
  decide

/-- C9 (the code at a failing input): two jobs, both lines in time. When the
first iteration is over (`i = 1`, back at the `select`) two receives from the
channel have completed and two results are in the sink, not one. -/
theorem one_iteration_two_receives :
    feasible (init 2) [Act.arrive "Go 10 [0.10s]\n", Act.arrive "Rust 10 [0.10s]\n",
      Act.selChan "Go 10 [0.10s]\n", Act.recv "Rust 10 [0.10s]\n"] = true ∧
    run (init 2) [Act.arrive "Go 10 [0.10s]\n", Act.arrive "Rust 10 [0.10s]\n",
      Act.selChan "Go 10 [0.10s]\n", Act.recv "Rust 10 [0.10s]\n"]
      = { n := 2, i := 1, pc := Pc.atSelect, senders := [], fired := false,
          sink := [Printed.result "Go 10 [0.10s]\n", Printed.result "Rust 10 [0.10s]\n"],
          recvs := 2 } := by
  decide

/-! ## The claims on the job source -/

theorem decodeLoop_eq {σ : Type} (f : Lang → σ → σ) (outcomes : List Decoded) (s : σ) :
    decodeLoop f outcomes s =
      (match firstMalformed outcomes with
        | some msg => Exit.fatal msg
        | none => Exit.returned,
       (decodedBefore outcomes).foldl (fun acc lang => f lang acc) s) := by
  induction outcomes generalizing s with
  | nil => rfl
  | cons o rest ih =>
    cases o with
    | error e => cases e <;> rfl
    | ok lang => simpa [decodeLoop, firstMalformed, decodedBefore] using ih (f lang s)

/-- C4 (counterexample): a source whose second record is malformed. The decode
outcomes contain an error, and `do` has called the dispatch callback once, for
the first record, before `log.Fatal`: one goroutine was started and `n` is 1. -/
theorem malformed_second_record_dispatches_first :
    firstMalformed [Except.ok ⟨"Go", 2009, "http://golang.org/"⟩,
      Except.error (DecodeErr.other "invalid character")] = some "invalid character" ∧
    do_ (Except.ok [Except.ok ⟨"Go", 2009, "http://golang.org/"⟩,
      Except.error (DecodeErr.other "invalid character")]) dispatch { n := 0, started := [] }
      = (Exit.fatal "invalid character",
         { n := 1, started := [("Go", "http://golang.org/")] }) := by
  decide

/-- C4 (amended): when the source cannot be opened `do` aborts with the callback
never called. Otherwise it calls the callback, in order, on exactly the records
decoded before the first error value, and on none after it; it aborts when that
error is a malformed record and returns when it is `io.EOF`, so a source read to
its end has every record dispatched. For the dispatch callback of `main` the
counter `n` ends as the number of those records and the goroutines started
are theirs, in order. -/
theorem do_dispatches_decoded_prefix {σ : Type} (f : Lang → σ → σ) (s : σ)
    (msg : String) (outcomes : List Decoded) :
    do_ (Except.error msg) f s = (Exit.fatal msg, s) ∧
    do_ (Except.ok outcomes) f s =
      (match firstMalformed outcomes with
        | some bad => Exit.fatal bad
        | none => Exit.returned,
       (decodedBefore outcomes).foldl (fun acc lang => f lang acc) s) ∧
    (do_ (Except.ok outcomes) dispatch { n := 0, started := [] }).2
      = { n := (decodedBefore outcomes).length,
          started := (decodedBefore outcomes).map (fun lang => (lang.Name, lang.URL)) } := by
  refine ⟨rfl, decodeLoop_eq f outcomes s, ?_⟩
  have h := decodeLoop_eq dispatch outcomes { n := 0, started := [] }
  have hn : ∀ (ls : List Lang) (d : Dispatch),
      ls.foldl (fun acc lang => dispatch lang acc) d
        = { n := d.n + ls.length,
            started := d.started ++ ls.map (fun lang => (lang.Name, lang.URL)) } := by
    intro ls
    induction ls with
    | nil => intro d; simp
    | cons l rest ih =>
      intro d
      simp only [List.foldl_cons, List.length_cons, List.map_cons]
      rw [ih]
      simp [dispatch]
      omega
  show (decodeLoop dispatch outcomes { n := 0, started := [] }).2 = _
  rw [h]
  simp [hn]

/-! ## The claims on the worker -/

theorem isFailureFor_failureLine (name err : String) :
    isFailureFor name (failureLine name err) = true := by
  simp [isFailureFor, failureLine, List.isPrefixOf_iff_prefix]

theorem isFailureFor_successLine (name : String) (n : Nat) (elapsed : String) :
    isFailureFor name (successLine name n elapsed) = false := by
  have h : ¬ ((name ++ ": ").data <+: (successLine name n elapsed).data) := by
    simp [successLine, List.append_assoc, List.prefix_append_right_inj]
  have h2 : (name ++ ": ").data.isPrefixOf (successLine name n elapsed).data ≠ true := by
    intro hp
    exact h (List.isPrefixOf_iff_prefix.mp hp)
  unfold isFailureFor
  exact Bool.eq_false_iff.mpr h2

/-- C5 (counterexample): `http.Get` succeeds and `io.Copy` stops after three
bytes with an error. The worker sends the success line with byte count 3, not a
failure report for the job. -/
theorem broken_body_reported_as_success :
    count_concurrent (fun _ => Fetch.body 3 (some "unexpected EOF")) "0.10" "Go"
      "http://golang.org/" (fun _ => true)
      = { offered := ["Go 3 [0.10s]\n"], sent := ["Go 3 [0.10s]\n"],
          exit := some Exit.returned } ∧
    isFailureFor "Go" "Go 3 [0.10s]\n" = false ∧
    "Go 3 [0.10s]\n" = successLine "Go" 3 "0.10" := by
  decide

/-- C5 (amended): when the fetch returns, the worker comes to its send with one
line, and that line is what it sends once `main` receives it. The line is a
failure report carrying the job's name exactly when `http.Get` returned an
error, and then it is that error's report. Whenever `http.Get` returned a
response it is the success line whose byte count is the number of bytes
`io.Copy` consumed, whether or not `io.Copy` reported an error. -/
theorem worker_line_by_fetch (get : String → Fetch) (elapsed name url : String)
    (c : String → Bool) (hret : get url ≠ Fetch.hang) :
    ∃ line, (count_concurrent get elapsed name url c).offered = [line] ∧
      (count_concurrent get elapsed name url c).sent = (if c line then [line] else []) ∧
      (isFailureFor name line = true ↔ ∃ err, get url = Fetch.getErr err) ∧
      (∀ err, get url = Fetch.getErr err → line = failureLine name err) ∧
      (∀ n copyErr, get url = Fetch.body n copyErr → line = successLine name n elapsed) := by
  unfold count_concurrent sendAndReturn
  cases hg : get url with
  | hang => exact absurd hg hret
  | getErr err =>
    refine ⟨failureLine name err, ?_, ?_, ?_, ?_, ?_⟩
    · simp only []; split_ifs <;> rfl
    · simp only []; split_ifs <;> rfl
    · simp [isFailureFor_failureLine]
    · intro e he; cases he; rfl
    · intro n ce he; cases he
  | body n ce =>
    refine ⟨successLine name n elapsed, ?_, ?_, ?_, ?_, ?_⟩
    · simp only []; split_ifs <;> rfl
    · simp only []; split_ifs <;> rfl
    · simp [isFailureFor_successLine]
    · intro e he; cases he
    · intro m ce2 he; cases he; rfl

/-- Witness of the amended C5: a body cut short after three bytes. -/
theorem worker_line_by_fetch_witness :
    (fun _ => Fetch.body 3 (some "unexpected EOF")) "http://golang.org/" ≠ Fetch.hang ∧
    ∃ line, (count_concurrent (fun _ => Fetch.body 3 (some "unexpected EOF")) "0.10" "Go"
        "http://golang.org/" (fun _ => true)).offered = [line] ∧
      (count_concurrent (fun _ => Fetch.body 3 (some "unexpected EOF")) "0.10" "Go"
        "http://golang.org/" (fun _ => true)).sent
        = (if (fun _ => true) line then [line] else []) ∧
      (isFailureFor "Go" line = true ↔
        ∃ err, (fun _ => Fetch.body 3 (some "unexpected EOF")) "http://golang.org/"
          = Fetch.getErr err) ∧
      (∀ err, (fun _ => Fetch.body 3 (some "unexpected EOF")) "http://golang.org/"
          = Fetch.getErr err → line = failureLine "Go" err) ∧
      (∀ n copyErr, (fun _ => Fetch.body 3 (some "unexpected EOF")) "http://golang.org/"
          = Fetch.body n copyErr → line = successLine "Go" n "0.10") :=
  ⟨by decide,
   worker_line_by_fetch (fun _ => Fetch.body 3 (some "unexpected EOF")) "0.10" "Go"
     "http://golang.org/" (fun _ => true) (by decide)⟩

/-- C6 (counterexample): one job whose fetch returns after the deadline. The
timer fires first and `main` returns; the worker then reaches its send, but no
receive on `c` can happen any more: the message stays parked and nothing is
received. For this worker the send is never taken, so it has sent zero messages
and never returns, although its fetch returned. -/
theorem late_worker_sends_nothing :
    (fun _ => Fetch.body 10 none) "http://golang.org/" ≠ Fetch.hang ∧
    run (init 1) [Act.fire, Act.selTimer, Act.arrive "Go 10 [5.00s]\n"]
      = { n := 1, i := 0, pc := Pc.returned, senders := ["Go 10 [5.00s]\n"], fired := true,
          sink := [Printed.timedOut], recvs := 0 } ∧
    step? (run (init 1) [Act.fire, Act.selTimer, Act.arrive "Go 10 [5.00s]\n"])
      (Act.selChan "Go 10 [5.00s]\n") = none ∧
    step? (run (init 1) [Act.fire, Act.selTimer, Act.arrive "Go 10 [5.00s]\n"])
      (Act.recv "Go 10 [5.00s]\n") = none ∧
    count_concurrent (fun _ => Fetch.body 10 none) "5.00" "Go" "http://golang.org/"
      (fun _ => false)
      = { offered := ["Go 10 [5.00s]\n"], sent := [], exit := none } := by
  decide

/-- C6 (amended): whenever the fetch returns, on the failure path as on the
success path, the worker comes to exactly one send on `c`, never none and never
two, with a message that begins with the job's name; after a failed `http.Get`
the message is the name, a colon, a blank and the error text, after a response
it is the name, the byte count and the elapsed time. When `main` receives the
message, exactly that one message has been sent and the worker returns; when no
receiver ever takes it, nothing has been sent and the worker stays parked in
its send. In no case does the worker end the process. -/
theorem worker_one_send_when_received (get : String → Fetch) (elapsed name url : String)
    (c : String → Bool) (hret : get url ≠ Fetch.hang) :
    ∃ line, (count_concurrent get elapsed name url c).offered = [line] ∧
      (∃ rest, line = name ++ rest) ∧
      (∀ err, get url = Fetch.getErr err →
        line = name ++ ": " ++ err ∧ isFailureFor name line = true) ∧
      (∀ n copyErr, get url = Fetch.body n copyErr →
        line = name ++ " " ++ toString n ++ " [" ++ elapsed ++ "s]\n") ∧
      (c line = true → count_concurrent get elapsed name url c
        = { offered := [line], sent := [line], exit := some Exit.returned }) ∧
      (c line = false → count_concurrent get elapsed name url c
        = { offered := [line], sent := [], exit := none }) ∧
      (∀ msg, (count_concurrent get elapsed name url c).exit ≠ some (Exit.fatal msg)) := by
  unfold count_concurrent sendAndReturn
  cases hg : get url with
  | hang => exact absurd hg hret
  | getErr err =>
    refine ⟨failureLine name err, ?_, ⟨": " ++ err, ?_⟩, ?_, ?_, ?_, ?_, ?_⟩
    · simp only []; split_ifs <;> rfl
    · simp [failureLine, String.append_assoc]
    · intro e he; cases he
      exact ⟨rfl, isFailureFor_failureLine name err⟩
    · intro n ce he; cases he
    · intro hc; simp [hc]
    · intro hc; simp [hc]
    · intro msg; simp only []; split_ifs <;> simp
  | body n ce =>
    refine ⟨successLine name n elapsed, ?_,
      ⟨" " ++ toString n ++ " [" ++ elapsed ++ "s]\n", ?_⟩, ?_, ?_, ?_, ?_, ?_⟩
    · simp only []; split_ifs <;> rfl
    · simp [successLine, String.append_assoc]
    · intro e he; cases he
    · intro m ce2 he; cases he; rfl
    · intro hc; simp [hc]
    · intro hc; simp [hc]
    · intro msg; simp only []; split_ifs <;> simp

/-- Witness of the amended C6: a refused connection, reported to a waiting
`main`. -/
theorem worker_one_send_when_received_witness :
    (fun _ => Fetch.getErr "connection refused") "http://golang.org/" ≠ Fetch.hang ∧
    ∃ line, (count_concurrent (fun _ => Fetch.getErr "connection refused") "0.10" "Go"
        "http://golang.org/" (fun _ => true)).offered = [line] ∧
      (∃ rest, line = "Go" ++ rest) ∧
      (∀ err, (fun _ => Fetch.getErr "connection refused") "http://golang.org/"
          = Fetch.getErr err →
        line = "Go" ++ ": " ++ err ∧ isFailureFor "Go" line = true) ∧
      (∀ n copyErr, (fun _ => Fetch.getErr "connection refused") "http://golang.org/"
          = Fetch.body n copyErr →
        line = "Go" ++ " " ++ toString n ++ " [" ++ "0.10" ++ "s]\n") ∧
      ((fun _ => true) line = true →
        count_concurrent (fun _ => Fetch.getErr "connection refused") "0.10" "Go"
          "http://golang.org/" (fun _ => true)
          = { offered := [line], sent := [line], exit := some Exit.returned }) ∧
      ((fun _ => true) line = false →
        count_concurrent (fun _ => Fetch.getErr "connection refused") "0.10" "Go"
          "http://golang.org/" (fun _ => true)
          = { offered := [line], sent := [], exit := none }) ∧
      (∀ msg, (count_concurrent (fun _ => Fetch.getErr "connection refused") "0.10" "Go"
          "http://golang.org/" (fun _ => true)).exit ≠ some (Exit.fatal msg)) :=
  ⟨by decide,
   worker_one_send_when_received (fun _ => Fetch.getErr "connection refused") "0.10" "Go"
     "http://golang.org/" (fun _ => true) (by decide)⟩

end Crawler
